import Mathlib

/-!
Verification of the live-telemetry subsystem of arctic-trace-watch.

The definitions below are a shallow embedding of the code in
src/components/LiveProducer.tsx (tick generation), the
useRealtimeTelemetry hook (tick consumption), and the live-marker
update / smoothing-animation effect of src/components/Dashboard.tsx.
Coordinates, speeds and courses are modelled as rationals; the
nondeterministic library calls (Math.random, crypto.randomUUID,
Date.now) are modelled as oracle streams indexed by the number of
calls made so far, threaded through the computation in call order.
-/

namespace ArcticTraceWatch

/-- A latitude/longitude pair (the GeoPoint interface of the types module). -/
structure GeoPoint where
  latitude : ℚ
  longitude : ℚ
deriving DecidableEq, Repr

/-- The fields of the Trajectory interface used by the live stream:
an optional vessel identifier and optional start/end coordinates. -/
structure Trajectory where
  mmsi : Option ℕ
  startLocation : Option GeoPoint
  endLocation : Option GeoPoint
deriving DecidableEq, Repr

/-- One synthetic path point as pushed by startStream into an
iterator: lat, lon, mmsi, speed, course (object literal order). -/
structure Point where
  lat : ℚ
  lon : ℚ
  mmsi : ℕ
  speed : ℚ
  course : ℚ
deriving DecidableEq, Repr

/-- A vessel observation inside a broadcast tick: a path point spread
together with the idx field added at emission time. -/
structure LiveVessel where
  lat : ℚ
  lon : ℚ
  mmsi : ℕ
  speed : ℚ
  course : ℚ
  idx : ℕ
deriving DecidableEq, Repr

/-- A broadcast tick as built by broadcastTick: correlation id,
timestamp, vessel batch, and the completion flag (absent in the
source is modelled as false, matching JS truthiness). -/
structure LiveTick where
  traceId : String
  ts : ℕ
  vessels : List LiveVessel
  done : Bool
deriving DecidableEq, Repr

/-- JS truthiness of the optional traceId prop: undefined and the
empty string are falsy. -/
def truthyStr : Option String → Bool
  | none => false
  | some s => !s.isEmpty

/-- The expression traceId OR-ELSE crypto.randomUUID() of
LiveProducer: the fresh uuid is used only when the prop is falsy. -/
def resolveTraceId (tOpt : Option String) (fresh : String) : String :=
  match tOpt with
  | some s => if s.isEmpty then fresh else s
  | none => fresh

/-- Number of crypto.randomUUID() calls one broadcast makes: the
short-circuit OR evaluates the uuid call only when the prop is falsy. -/
def uuidUse (tOpt : Option String) : ℕ :=
  if truthyStr tOpt then 0 else 1

/-- The effective vessel identifier traj.mmsi OR-ELSE 0: a missing
identifier (and the falsy identifier 0 itself) yields 0. -/
def effMmsi (traj : Trajectory) : ℕ := traj.mmsi.getD 0

/-- Point synthesis for one trajectory (startStream lines 36-56): if
both endpoints are present, push steps+1 points for i = 0..steps with
linear interpolation at i/steps, constant mmsi, and speed/course drawn
from the random oracle (two draws per point, speed first); otherwise
no points. Returns the points and the advanced random-call counter. -/
def genPoints (steps : ℕ) (rand : ℕ → ℚ) (traj : Trajectory) (k : ℕ) :
    List Point × ℕ :=
  match traj.startLocation, traj.endLocation with
  | some s, some e =>
      (((List.range (steps + 1)).map fun (i : ℕ) =>
        { lat := s.latitude + (e.latitude - s.latitude) * ((i : ℚ) / (steps : ℚ))
          lon := s.longitude + (e.longitude - s.longitude) * ((i : ℚ) / (steps : ℚ))
          mmsi := effMmsi traj
          speed := 10 + rand (k + 2 * i) * 15
          course := 45 + rand (k + 2 * i + 1) * 90 }),
       k + 2 * (steps + 1))
  | _, _ => ([], k)

/-- One playback iterator: a fixed point sequence and a cursor. -/
structure Iterator where
  points : List Point
  index : ℕ
deriving DecidableEq, Repr

/-- iteratorsRef.current: one iterator per trajectory, cursor 0, with
the random-call counter threaded left to right across trajectories. -/
def mkIterators (steps : ℕ) (rand : ℕ → ℚ) :
    List Trajectory → ℕ → List Iterator × ℕ
  | [], k => ([], k)
  | traj :: rest, k =>
      let pk := genPoints steps rand traj k
      let rk := mkIterators steps rand rest pk.2
      ({ points := pk.1, index := 0 } :: rk.1, rk.2)

/-- Spreading a path point into an observation with the idx field. -/
def toObs (p : Point) (i : ℕ) : LiveVessel :=
  { lat := p.lat, lon := p.lon, mmsi := p.mmsi, speed := p.speed,
    course := p.course, idx := i }

/-- One pass of the interval body over the iterators (lines 69-78):
every iterator with an unconsumed point contributes its current point
tagged with idx = index and advances; the rest are unchanged. The
emitted batch is empty exactly when the loop left allDone true. -/
def stepIters : List Iterator → List LiveVessel × List Iterator
  | [] => ([], [])
  | it :: rest =>
      let vr := stepIters rest
      match it.points[it.index]? with
      | some p => (toObs p it.index :: vr.1,
                   { it with index := it.index + 1 } :: vr.2)
      | none => (vr.1, it :: vr.2)

/-- Unconsumed points of one iterator. -/
def remaining (it : Iterator) : ℕ := it.points.length - it.index

/-- The largest number of unconsumed points across the iterators;
the number of emitting interval firings still to come. -/
def maxRemaining (its : List Iterator) : ℕ :=
  its.foldr (fun it m => max (remaining it) m) 0

/-- The interval loop of startStream together with the natural
completion path of stopStream: while some iterator emits, broadcast
the batch (done absent) and continue; when the loop leaves allDone
true, broadcast one final tick with an empty batch and done set, and
stop. The uuid counter advances only on broadcasts whose traceId prop
is falsy; the clock counter advances on every broadcast. Fuel bounds
the recursion; maxRemaining its + 1 firings always suffice. -/
def runProducer (tOpt : Option String) (uuid : ℕ → String) (clock : ℕ → ℕ) :
    ℕ → List Iterator → ℕ → ℕ → List LiveTick
  | 0, _, _, _ => []
  | fuel + 1, its, u, b =>
      let sv := stepIters its
      if sv.1.isEmpty then
        [{ traceId := resolveTraceId tOpt (uuid u), ts := clock b,
           vessels := [], done := true }]
      else
        { traceId := resolveTraceId tOpt (uuid u), ts := clock b,
          vessels := sv.1, done := false } ::
          runProducer tOpt uuid clock fuel sv.2 (u + uuidUse tOpt) (b + 1)

/-- A whole playback session: build the iterators from the
trajectories, then run the interval to natural completion. -/
def sessionTrace (steps : ℕ) (tOpt : Option String) (rand : ℕ → ℚ)
    (uuid : ℕ → String) (clock : ℕ → ℕ) (trajs : List Trajectory) :
    List LiveTick :=
  let its := (mkIterators steps rand trajs 0).1
  runProducer tOpt uuid clock (maxRemaining its + 1) its 0 0

/-- The state-defined interpolation constant of startStream. -/
def producerSteps : ℕ := 20

/-- The truthiness test of the guard on both endpoints. -/
def hasEndpoints (traj : Trajectory) : Bool :=
  traj.startLocation.isSome && traj.endLocation.isSome

/-- A tick as it arrives on the wire at a subscriber: the vessels
array may be absent from the payload (modelled as none). -/
structure WireTick where
  traceId : String
  ts : ℕ
  vessels : Option (List LiveVessel)
  done : Bool
deriving DecidableEq, Repr

/-- A producer-built tick always carries its vessels array. -/
def toWire (t : LiveTick) : WireTick :=
  { traceId := t.traceId, ts := t.ts, vessels := some t.vessels,
    done := t.done }

/-- The state kept by the useRealtimeTelemetry hook. -/
structure TelemetryState where
  liveVessels : List LiveVessel
  isDone : Bool
  currentTraceId : Option String
deriving DecidableEq, Repr

/-- The initial hook state. -/
def initialTelemetry : TelemetryState :=
  { liveVessels := [], isDone := false, currentTraceId := none }

/-- The subscriber callback of useRealtimeTelemetry: it first reads
tick.vessels.length (throwing a TypeError when the array is absent,
before any state update), then replaces liveVessels and
currentTraceId, and latches isDone when the completion flag is set.
The hook never unsubscribes inside the callback: it is invoked for
every delivered tick, done or not. -/
def onTick (s : TelemetryState) (t : WireTick) : Except String TelemetryState :=
  match t.vessels with
  | none => Except.error "TypeError: tick.vessels is undefined"
  | some vs =>
      Except.ok { liveVessels := vs, currentTraceId := some t.traceId,
                  isDone := s.isDone || t.done }

/-- The fixed step count of the marker smoothing animation
(the local constant named steps in the Dashboard effect). -/
def animationSteps : ℕ := 10

/-- One in-flight smoothing animation: the captured start position,
the captured target, and the cursor of the next frame callback. -/
structure Anim where
  base : ℚ × ℚ
  target : ℚ × ℚ
  step : ℕ
deriving DecidableEq, Repr

/-- The coordinate one animation callback writes at its current step:
base + (target - base) * (step / 10), the body of interpolate. -/
def animWrite (a : Anim) : ℚ × ℚ :=
  (a.base.1 + (a.target.1 - a.base.1) * ((a.step : ℚ) / (animationSteps : ℚ)),
   a.base.2 + (a.target.2 - a.base.2) * ((a.step : ℚ) / (animationSteps : ℚ)))

/-- A marker together with the FIFO queue of its registered
animation-frame callbacks (the browser runs callbacks of one frame in
registration order; a callback that re-registers runs next frame). -/
structure MarkerAnim where
  pos : ℚ × ℚ
  queue : List Anim
deriving DecidableEq, Repr

/-- One animation frame over the callback queue, in order: a callback
with step below the limit writes its coordinate to the marker,
increments and re-registers; one at the limit does nothing and drops
out of the queue. -/
def runQueue : List Anim → (ℚ × ℚ) → (ℚ × ℚ) × List Anim
  | [], p => (p, [])
  | a :: rest, p =>
      if a.step < animationSteps then
        let pr := runQueue rest (animWrite a)
        (pr.1, { a with step := a.step + 1 } :: pr.2)
      else
        runQueue rest p

/-- One frame of the scheduler. -/
def runFrame (s : MarkerAnim) : MarkerAnim :=
  let pr := runQueue s.queue s.pos
  { pos := pr.1, queue := pr.2 }

/-- Several consecutive frames. -/
def runFrames : ℕ → MarkerAnim → MarkerAnim
  | 0, s => s
  | n + 1, s => runFrames n (runFrame s)

/-- Handling a tick observation for a vessel that already has a
marker (Dashboard lines 666-683): capture the current displayed
position and the new target, run the first interpolate call
synchronously (it writes ratio 0, leaving the position unchanged,
and advances to step 1), and register the continuation. The
previously registered callbacks stay in the queue: the old loop is
not cancelled, it keeps writing until it runs out. -/
def receiveTarget (s : MarkerAnim) (tgt : ℚ × ℚ) : MarkerAnim :=
  { pos := animWrite { base := s.pos, target := tgt, step := 0 },
    queue := s.queue ++ [{ base := s.pos, target := tgt, step := 1 }] }

/-- The two-ticks-in-quick-succession scenario: a marker resting at
p0 receives a first tick targeting t1, j frames elapse, a second tick
targeting t2 arrives, and the scheduler then runs to quiescence
(20 frames drain both loops). -/
def supersedeScenario (p0 t1 t2 : ℚ × ℚ) (j : ℕ) : MarkerAnim :=
  runFrames 20 (receiveTarget (runFrames j (receiveTarget { pos := p0, queue := [] } t1)) t2)

/-- The consumer-local marker table of the Dashboard live effect,
keyed by the observation mmsi (insertion order preserved). -/
def findMarker (mk : List (ℕ × (ℚ × ℚ))) (m : ℕ) : Option (ℚ × ℚ) :=
  (mk.find? fun q => q.1 == m).map (fun q => q.2)

/-- Replace the position stored under an existing key. -/
def setMarker (mk : List (ℕ × (ℚ × ℚ))) (m : ℕ) (p : ℚ × ℚ) :
    List (ℕ × (ℚ × ℚ)) :=
  mk.map fun q => if q.1 == m then (q.1, p) else q

/-- The resting coordinate of one uninterrupted smoothing animation
from cur toward tgt: the loop writes ratios 0/10 .. 9/10 and stops,
so the marker settles at cur + (tgt - cur) * 9/10. -/
def animEndCoord (cur tgt : ℚ × ℚ) : ℚ × ℚ :=
  (cur.1 + (tgt.1 - cur.1) * (9 / 10), cur.2 + (tgt.2 - cur.2) * (9 / 10))

/-- Processing one observation of a live tick against the marker
table: no marker under that mmsi creates one at the reported
coordinate; an existing marker is animated from its current position
toward the reported coordinate (recorded here at the resting point of
that animation). -/
def applyVessel (mk : List (ℕ × (ℚ × ℚ))) (v : LiveVessel) :
    List (ℕ × (ℚ × ℚ)) :=
  match findMarker mk v.mmsi with
  | none => mk ++ [(v.mmsi, (v.lat, v.lon))]
  | some cur => setMarker mk v.mmsi (animEndCoord cur (v.lat, v.lon))

/-- The forEach over one tick batch. -/
def applyTickVessels (mk : List (ℕ × (ℚ × ℚ))) (vs : List LiveVessel) :
    List (ℕ × (ℚ × ℚ)) :=
  vs.foldl applyVessel mk

/-- Scenario input: trajectory A of the spec scenario, with both
endpoints. -/
def trajA : Trajectory :=
  { mmsi := some 1,
    startLocation := some { latitude := 781/10, longitude := 155/10 },
    endLocation := some { latitude := 783/10, longitude := 157/10 } }

/-- Scenario input: trajectory B of the spec scenario, lacking the
end coordinate. -/
def trajB : Trajectory :=
  { mmsi := some 2,
    startLocation := some { latitude := 0, longitude := 0 },
    endLocation := none }

/-- A trajectory with both endpoints and no mmsi. -/
def trajNoId : Trajectory :=
  { mmsi := none,
    startLocation := some { latitude := 0, longitude := 0 },
    endLocation := some { latitude := 1, longitude := 1 } }

/-- A second distinct trajectory with both endpoints and no mmsi. -/
def trajNoId2 : Trajectory :=
  { mmsi := none,
    startLocation := some { latitude := 2, longitude := 2 },
    endLocation := some { latitude := 3, longitude := 3 } }

/-- A zero random oracle. -/
def randZero : ℕ → ℚ := fun _ => 0

/-- A random oracle returning one half everywhere. -/
def randHalf : ℕ → ℚ := fun _ => 1/2

/-- A uuid oracle with pairwise distinct values. -/
def uuidSeq : ℕ → String := fun n => toString n

/-- The identity clock oracle. -/
def clockSeq : ℕ → ℕ := fun b => b

/-- The idx fields of the observations one tick batch carries for one
vessel identifier. -/
def obsIdxs (m : ℕ) (vs : List LiveVessel) : List ℕ :=
  (vs.filter fun v => v.mmsi == m).map LiveVessel.idx

/-- The sequence of idx values carried by one vessel identifier
across the consecutive ticks of a trace. -/
def idxSeq (tr : List LiveTick) (m : ℕ) : List ℕ :=
  (tr.map fun tk => obsIdxs m tk.vessels).flatten

/-- The batch the interval emits at cursor position t: every iterator
holding a point at t contributes it, tagged idx = t. -/
def emitAt (its : List Iterator) (t : ℕ) : List LiveVessel :=
  its.filterMap fun it => (it.points[t]?).map fun p => toObs p t

/-- Alignment invariant of a running session: every iterator either
was born without points (an incomplete trajectory) or holds L points
with its cursor at i. -/
def AlignedAt (L i : ℕ) (its : List Iterator) : Prop :=
  ∀ it ∈ its, (it.points = [] ∧ it.index = 0) ∨
    (it.points.length = L ∧ it.index = i)

/-- The number of iterators whose point at position t carries the
vessel identifier m. -/
def countAt (m t : ℕ) (its : List Iterator) : ℕ :=
  its.countP fun it => (it.points[t]?).any fun p => p.mmsi == m

/-- A completion tick as delivered on the wire. -/
def wireDone : WireTick :=
  { traceId := "t", ts := 0, vessels := some [], done := true }

/-- A concrete vessel observation. -/
def vObs : LiveVessel :=
  { lat := 1, lon := 2, mmsi := 7, speed := 10, course := 45, idx := 0 }

/-- A concrete observation tick delivered after the completion tick. -/
def wireAfter : WireTick :=
  { traceId := "t", ts := 1, vessels := some [vObs], done := false }

/-- The hook state right after the completion tick was handled. -/
def doneState : TelemetryState :=
  { liveVessels := [], isDone := true, currentTraceId := some "t" }

/-- A wire tick whose payload lacks the vessels array. -/
def wireNoVessels : WireTick :=
  { traceId := "t", ts := 0, vessels := none, done := false }

/-! Basic lemmas about one interval pass. -/

theorem stepIters_cons_some {it : Iterator} {p : Point}
    (h : it.points[it.index]? = some p) (rest : List Iterator) :
    stepIters (it :: rest) =
      (toObs p it.index :: (stepIters rest).1,
       { it with index := it.index + 1 } :: (stepIters rest).2) := by
  simp only [stepIters, h]

theorem stepIters_cons_none {it : Iterator}
    (h : it.points[it.index]? = none) (rest : List Iterator) :
    stepIters (it :: rest) = ((stepIters rest).1, it :: (stepIters rest).2) := by
  simp only [stepIters, h]

theorem remaining_val (it : Iterator) :
    remaining it = it.points.length - it.index := rfl

theorem remaining_advance (it : Iterator) :
    remaining { it with index := it.index + 1 } =
      it.points.length - (it.index + 1) := rfl

theorem getElem?_some_lt {it : Iterator} {p : Point}
    (h : it.points[it.index]? = some p) :
    it.index < it.points.length := by
  by_contra hge
  rw [List.getElem?_eq_none (by omega)] at h
  exact Option.noConfusion h

theorem getElem?_none_ge {it : Iterator}
    (h : it.points[it.index]? = none) :
    it.points.length ≤ it.index := by
  by_contra hlt
  rw [List.getElem?_eq_getElem (by omega)] at h
  exact Option.noConfusion h

theorem stepIters_points_map (its : List Iterator) :
    ((stepIters its).2).map Iterator.points = its.map Iterator.points := by
  induction its with
  | nil => rfl
  | cons it rest ih =>
      cases h : it.points[it.index]? with
      | some p => rw [stepIters_cons_some h]; simpa using ih
      | none => rw [stepIters_cons_none h]; simpa using ih

theorem maxRemaining_cons (it : Iterator) (its : List Iterator) :
    maxRemaining (it :: its) = max (remaining it) (maxRemaining its) := rfl

theorem stepIters_fst_nil_iff (its : List Iterator) :
    (stepIters its).1 = [] ↔ maxRemaining its = 0 := by
  induction its with
  | nil => simp [stepIters, maxRemaining]
  | cons it rest ih =>
      rw [maxRemaining_cons]
      cases h : it.points[it.index]? with
      | some p =>
          rw [stepIters_cons_some h]
          have hlt := getElem?_some_lt h
          have hre := remaining_val it
          constructor
          · intro hc; exact absurd hc (List.cons_ne_nil _ _)
          · intro hc; omega
      | none =>
          rw [stepIters_cons_none h]
          have hge := getElem?_none_ge h
          have hre := remaining_val it
          rw [ih]
          omega

theorem stepIters_maxRemaining (its : List Iterator) :
    maxRemaining (stepIters its).2 = maxRemaining its - 1 := by
  induction its with
  | nil => rfl
  | cons it rest ih =>
      rw [maxRemaining_cons]
      cases h : it.points[it.index]? with
      | some p =>
          rw [stepIters_cons_some h]
          have hlt := getElem?_some_lt h
          rw [maxRemaining_cons, remaining_advance, ih]
          have hre := remaining_val it
          omega
      | none =>
          rw [stepIters_cons_none h]
          have hge := getElem?_none_ge h
          rw [maxRemaining_cons, ih]
          have hre := remaining_val it
          omega

/-- Structure of a completed run: some number of observation ticks
with the completion flag clear, then exactly one final tick with the
flag set and an empty batch, and nothing after it. -/
theorem runProducer_split (tOpt : Option String) (uuid : ℕ → String)
    (clock : ℕ → ℕ) :
    ∀ fuel its u b, maxRemaining its < fuel →
      ∃ body last,
        runProducer tOpt uuid clock fuel its u b = body ++ [last] ∧
        (∀ x ∈ body, x.done = false) ∧ last.done = true ∧
        last.vessels = [] := by
  intro fuel
  induction fuel with
  | zero => intro its u b h; omega
  | succ f ih =>
      intro its u b h
      simp only [runProducer]
      by_cases he : (stepIters its).1.isEmpty
      · rw [if_pos he]
        refine ⟨[], { traceId := resolveTraceId tOpt (uuid u), ts := clock b,
                      vessels := [], done := true }, by simp, by simp, rfl, rfl⟩
      · rw [if_neg he]
        have hne : (stepIters its).1 ≠ [] := by
          intro hc; exact he (by simp [hc])
        have hpos : maxRemaining its ≠ 0 := by
          intro hc; exact hne ((stepIters_fst_nil_iff its).mpr hc)
        have hfuel : maxRemaining (stepIters its).2 < f := by
          rw [stepIters_maxRemaining]; omega
        obtain ⟨body, last, heq, hbody, hdone, hves⟩ :=
          ih (stepIters its).2 (u + uuidUse tOpt) (b + 1) hfuel
        refine ⟨{ traceId := resolveTraceId tOpt (uuid u), ts := clock b,
                  vessels := (stepIters its).1, done := false } :: body, last,
                by rw [heq, List.cons_append], ?_, hdone, hves⟩
        intro x hx
        rcases List.mem_cons.mp hx with hx | hx
        · rw [hx]
        · exact hbody x hx

/-! Lemmas showing that iterators with an empty point sequence are
inert: removing them changes nothing about the emitted ticks. -/

theorem stepIters_filter (its : List Iterator) :
    stepIters (its.filter fun it => !it.points.isEmpty) =
      ((stepIters its).1,
       (stepIters its).2.filter fun it => !it.points.isEmpty) := by
  induction its with
  | nil => rfl
  | cons it rest ih =>
      by_cases hp : it.points.isEmpty
      · have hnil : it.points = [] := by
          cases hl : it.points with
          | nil => rfl
          | cons a l => rw [hl] at hp; exact absurd hp (by simp)
        have hnone : it.points[it.index]? = none := by simp [hnil]
        rw [List.filter_cons_of_neg (by simp [hp]), stepIters_cons_none hnone,
            ih, List.filter_cons_of_neg (by simp [hp])]
      · rw [List.filter_cons_of_pos (by simp [hp])]
        cases h : it.points[it.index]? with
        | some p =>
            rw [stepIters_cons_some h, stepIters_cons_some h, ih,
                List.filter_cons_of_pos (by simp [hp])]
        | none =>
            rw [stepIters_cons_none h, stepIters_cons_none h, ih,
                List.filter_cons_of_pos (by simp [hp])]

theorem maxRemaining_filter (its : List Iterator) :
    maxRemaining (its.filter fun it => !it.points.isEmpty) =
      maxRemaining its := by
  induction its with
  | nil => rfl
  | cons it rest ih =>
      by_cases hp : it.points.isEmpty
      · have hnil : it.points = [] := by
          cases hl : it.points with
          | nil => rfl
          | cons a l => rw [hl] at hp; exact absurd hp (by simp)
        have hrem : remaining it = 0 := by
          rw [remaining_val, hnil]
          simp
        rw [List.filter_cons_of_neg (by simp [hp]), ih, maxRemaining_cons,
            hrem]
        omega
      · rw [List.filter_cons_of_pos (by simp [hp]), maxRemaining_cons,
            maxRemaining_cons, ih]

theorem runProducer_filter (tOpt : Option String) (uuid : ℕ → String)
    (clock : ℕ → ℕ) :
    ∀ fuel its u b,
      runProducer tOpt uuid clock fuel
        (its.filter fun it => !it.points.isEmpty) u b =
      runProducer tOpt uuid clock fuel its u b := by
  intro fuel
  induction fuel with
  | zero => intro its u b; rfl
  | succ f ih =>
      intro its u b
      simp only [runProducer, stepIters_filter]
      by_cases he : (stepIters its).1.isEmpty
      · rw [if_pos he, if_pos he]
      · rw [if_neg he, if_neg he, ih]

theorem genPoints_incomplete {traj : Trajectory}
    (h : hasEndpoints traj = false) (steps : ℕ) (rand : ℕ → ℚ) (k : ℕ) :
    genPoints steps rand traj k = ([], k) := by
  unfold hasEndpoints at h
  unfold genPoints
  cases hs : traj.startLocation with
  | none => rfl
  | some s =>
      cases he : traj.endLocation with
      | none => rfl
      | some e => rw [hs, he] at h; exact absurd h (by simp)

theorem genPoints_complete_length {traj : Trajectory}
    (h : hasEndpoints traj = true) (steps : ℕ) (rand : ℕ → ℚ) (k : ℕ) :
    (genPoints steps rand traj k).1.length = steps + 1 := by
  unfold hasEndpoints at h
  unfold genPoints
  cases hs : traj.startLocation with
  | none => rw [hs] at h; exact absurd h (by simp)
  | some s =>
      cases he : traj.endLocation with
      | none => rw [hs, he] at h; exact absurd h (by simp)
      | some e => simp

theorem mkIterators_filter (steps : ℕ) (rand : ℕ → ℚ) :
    ∀ (trajs : List Trajectory) (k : ℕ),
      mkIterators steps rand (trajs.filter hasEndpoints) k =
        ((mkIterators steps rand trajs k).1.filter
            (fun it => !it.points.isEmpty),
         (mkIterators steps rand trajs k).2) := by
  intro trajs
  induction trajs with
  | nil => intro k; rfl
  | cons traj rest ih =>
      intro k
      by_cases h : hasEndpoints traj
      · have hlen := genPoints_complete_length h steps rand k
        rw [List.filter_cons_of_pos (by simp [h])]
        simp only [mkIterators]
        rw [ih]
        have hne : ((genPoints steps rand traj k).1.isEmpty) = false := by
          cases hl : (genPoints steps rand traj k).1 with
          | nil => rw [hl] at hlen; exact absurd hlen (by simp)
          | cons a l => simp
        rw [List.filter_cons_of_pos (by simp [hne])]
      · have hgen := genPoints_incomplete (by simpa using h) steps rand k
        rw [List.filter_cons_of_neg (by simp [h])]
        simp only [mkIterators]
        rw [hgen, ih]
        rw [List.filter_cons_of_neg (by simp)]

/-! Closed form of a session whose live iterators all hold the same
number of points (always the case: every complete trajectory gets
exactly steps + 1 points). -/

theorem runProducer_succ (tOpt : Option String) (uuid : ℕ → String)
    (clock : ℕ → ℕ) (fuel : ℕ) (its : List Iterator) (u b : ℕ) :
    runProducer tOpt uuid clock (fuel + 1) its u b =
      if (stepIters its).1.isEmpty then
        [{ traceId := resolveTraceId tOpt (uuid u), ts := clock b,
           vessels := [], done := true }]
      else
        { traceId := resolveTraceId tOpt (uuid u), ts := clock b,
          vessels := (stepIters its).1, done := false } ::
          runProducer tOpt uuid clock fuel (stepIters its).2
            (u + uuidUse tOpt) (b + 1) := rfl

theorem emitAt_eq_points (its : List Iterator) (t : ℕ) :
    emitAt its t = (its.map Iterator.points).filterMap
      (fun pts => (pts[t]?).map fun p => toObs p t) := by
  unfold emitAt
  rw [List.filterMap_map]
  rfl

theorem emitAt_step (its : List Iterator) (t : ℕ) :
    emitAt (stepIters its).2 t = emitAt its t := by
  rw [emitAt_eq_points, emitAt_eq_points, stepIters_points_map]

theorem countAt_eq_points (m t : ℕ) (its : List Iterator) :
    countAt m t its = ((its.map Iterator.points).countP
      fun pts => (pts[t]?).any fun p => p.mmsi == m) := by
  unfold countAt
  rw [List.countP_map]
  rfl

theorem countAt_step (m t : ℕ) (its : List Iterator) :
    countAt m t (stepIters its).2 = countAt m t its := by
  rw [countAt_eq_points, countAt_eq_points, stepIters_points_map]

theorem stepIters_aligned {L i : ℕ} {its : List Iterator} (hi : i < L)
    (h : AlignedAt L i its) :
    (stepIters its).1 = emitAt its i ∧
      AlignedAt L (i + 1) (stepIters its).2 := by
  induction its with
  | nil =>
      exact ⟨rfl, fun it hit => absurd hit (List.not_mem_nil it)⟩
  | cons it rest ih =>
      have hhead := h it (List.mem_cons_self it rest)
      have hrest : AlignedAt L i rest :=
        fun x hx => h x (List.mem_cons_of_mem _ hx)
      obtain ⟨ih1, ih2⟩ := ih hrest
      rcases hhead with ⟨hnil, hidx⟩ | ⟨hlen, hidx⟩
      · have hnone : it.points[it.index]? = none := by simp [hnil]
        rw [stepIters_cons_none hnone]
        refine ⟨?_, ?_⟩
        · rw [ih1]
          unfold emitAt
          rw [List.filterMap_cons]
          simp [hnil]
        · intro x hx
          rcases List.mem_cons.mp hx with rfl | hx
          · exact Or.inl ⟨hnil, hidx⟩
          · exact ih2 x hx
      · have hlt : it.index < it.points.length := by omega
        have hsome : it.points[it.index]? = some it.points[it.index] :=
          List.getElem?_eq_getElem hlt
        subst hidx
        rw [stepIters_cons_some hsome]
        refine ⟨?_, ?_⟩
        · rw [ih1]
          unfold emitAt
          rw [List.filterMap_cons]
          simp [hsome]
        · intro x hx
          rcases List.mem_cons.mp hx with rfl | hx
          · exact Or.inr ⟨hlen, rfl⟩
          · exact ih2 x hx

theorem maxRemaining_aligned_end {L : ℕ} {its : List Iterator}
    (h : AlignedAt L L its) : maxRemaining its = 0 := by
  induction its with
  | nil => rfl
  | cons it rest ih =>
      have hhead := h it (List.mem_cons_self it rest)
      have hrest : AlignedAt L L rest :=
        fun x hx => h x (List.mem_cons_of_mem _ hx)
      rw [maxRemaining_cons, ih hrest]
      have hre := remaining_val it
      rcases hhead with ⟨hnil, hidx⟩ | ⟨hlen, hidx⟩
      · have : it.points.length = 0 := by rw [hnil]; rfl
        omega
      · omega

theorem exists_nonempty_step {its : List Iterator}
    (hex : ∃ it ∈ its, it.points ≠ []) :
    ∃ it ∈ (stepIters its).2, it.points ≠ [] := by
  obtain ⟨it, hmem, hne⟩ := hex
  have hpts : it.points ∈ (stepIters its).2.map Iterator.points := by
    rw [stepIters_points_map]
    exact List.mem_map_of_mem Iterator.points hmem
  obtain ⟨it2, hmem2, heq2⟩ := List.mem_map.mp hpts
  exact ⟨it2, hmem2, by rw [heq2]; exact hne⟩

theorem emitAt_ne_nil {L i : ℕ} {its : List Iterator} (hi : i < L)
    (h : AlignedAt L i its) (hex : ∃ it ∈ its, it.points ≠ []) :
    emitAt its i ≠ [] := by
  obtain ⟨it, hmem, hne⟩ := hex
  rcases h it hmem with ⟨hnil, _⟩ | ⟨hlen, _⟩
  · exact absurd hnil hne
  · have hlt : i < it.points.length := by omega
    have hsome : it.points[i]? = some it.points[i] :=
      List.getElem?_eq_getElem hlt
    have : toObs it.points[i] i ∈ emitAt its i := by
      unfold emitAt
      exact List.mem_filterMap.mpr ⟨it, hmem, by rw [hsome]; rfl⟩
    exact List.ne_nil_of_mem this

theorem runProducer_closedForm (tOpt : Option String) (uuid : ℕ → String)
    (clock : ℕ → ℕ) :
    ∀ (d L i : ℕ) (its : List Iterator) (u b : ℕ), i + d = L →
      AlignedAt L i its → (∃ it ∈ its, it.points ≠ []) →
      (runProducer tOpt uuid clock (d + 1) its u b).map
          (fun tk => tk.vessels) =
        ((List.range' i d).map fun t => emitAt its t) ++ [[]] := by
  intro d
  induction d with
  | zero =>
      intro L i its u b hiL h hex
      have hL : i = L := by omega
      subst hL
      have hnil : (stepIters its).1 = [] :=
        (stepIters_fst_nil_iff its).mpr (maxRemaining_aligned_end h)
      rw [runProducer_succ, if_pos (by simp [hnil])]
      rfl
  | succ d ih =>
      intro L i its u b hiL h hex
      have hi : i < L := by omega
      obtain ⟨hfst, halign⟩ := stepIters_aligned hi h
      have hne : (stepIters its).1 ≠ [] := by
        rw [hfst]
        exact emitAt_ne_nil hi h hex
      rw [runProducer_succ, if_neg (by simpa using hne)]
      rw [List.map_cons]
      rw [ih L (i + 1) (stepIters its).2 (u + uuidUse tOpt) (b + 1)
          (by omega) halign (exists_nonempty_step hex)]
      have hmapeq :
          ((List.range' (i + 1) d).map fun t => emitAt (stepIters its).2 t) =
            (List.range' (i + 1) d).map fun t => emitAt its t :=
        List.map_congr_left fun t _ => emitAt_step its t
      rw [hmapeq, hfst, List.range'_succ, List.map_cons, List.cons_append]

/-! Counting the contributions of one vessel identifier to one
emitted batch. -/

theorem emitAt_cons_some {it : Iterator} {p : Point} {t : ℕ}
    (h : it.points[t]? = some p) (rest : List Iterator) :
    emitAt (it :: rest) t = toObs p t :: emitAt rest t := by
  unfold emitAt
  rw [List.filterMap_cons, h]
  rfl

theorem emitAt_cons_none {it : Iterator} {t : ℕ}
    (h : it.points[t]? = none) (rest : List Iterator) :
    emitAt (it :: rest) t = emitAt rest t := by
  unfold emitAt
  rw [List.filterMap_cons, h]
  rfl

theorem countAt_cons (m t : ℕ) (it : Iterator) (rest : List Iterator) :
    countAt m t (it :: rest) = countAt m t rest +
      if (it.points[t]?).any (fun p => p.mmsi == m) then 1 else 0 := by
  unfold countAt
  rw [List.countP_cons]

theorem obsIdxs_cons (m : ℕ) (v : LiveVessel) (vs : List LiveVessel) :
    obsIdxs m (v :: vs) =
      if v.mmsi == m then v.idx :: obsIdxs m vs else obsIdxs m vs := by
  unfold obsIdxs
  rw [List.filter_cons]
  by_cases hm : (v.mmsi == m) = true
  · rw [if_pos hm, if_pos hm, List.map_cons]
  · rw [if_neg hm, if_neg hm]

theorem obsIdxs_emitAt (m t : ℕ) :
    ∀ its : List Iterator,
      obsIdxs m (emitAt its t) = List.replicate (countAt m t its) t := by
  intro its
  induction its with
  | nil => rfl
  | cons it rest ih =>
      rw [countAt_cons]
      cases h : it.points[t]? with
      | none =>
          rw [emitAt_cons_none h, ih]
          simp [h]
      | some p =>
          rw [emitAt_cons_some h, obsIdxs_cons, ih]
          by_cases hm : (p.mmsi == m) = true
          · rw [if_pos (by simpa [toObs] using hm)]
            simp [h, hm, toObs, List.replicate_succ]
          · rw [if_neg (by simpa [toObs] using hm)]
            simp [h, hm]

theorem genPoints_mmsi {steps : ℕ} {rand : ℕ → ℚ} {traj : Trajectory}
    {k : ℕ} : ∀ p ∈ (genPoints steps rand traj k).1, p.mmsi = effMmsi traj := by
  intro p hp
  unfold genPoints at hp
  cases hs : traj.startLocation with
  | none => rw [hs] at hp; exact absurd hp (List.not_mem_nil p)
  | some s =>
      cases he : traj.endLocation with
      | none => rw [hs, he] at hp; exact absurd hp (List.not_mem_nil p)
      | some e =>
          rw [hs, he] at hp
          obtain ⟨i, _, rfl⟩ := List.mem_map.mp hp
          rfl

theorem countAt_mkIterators (m t : ℕ) (steps : ℕ) (rand : ℕ → ℚ)
    (ht : t < steps + 1) :
    ∀ (trajs : List Trajectory) (k : ℕ),
      countAt m t (mkIterators steps rand trajs k).1 =
        ((trajs.filter hasEndpoints).map effMmsi).count m := by
  intro trajs
  induction trajs with
  | nil => intro k; rfl
  | cons traj rest ih =>
      intro k
      simp only [mkIterators]
      rw [countAt_cons, ih]
      have hpts : (Iterator.mk (genPoints steps rand traj k).1 0).points =
          (genPoints steps rand traj k).1 := rfl
      rw [hpts]
      by_cases h : hasEndpoints traj = true
      · have hlen := genPoints_complete_length h steps rand k
        have hlt : t < (genPoints steps rand traj k).1.length := by omega
        have hsome : (genPoints steps rand traj k).1[t]? =
            some (genPoints steps rand traj k).1[t] :=
          List.getElem?_eq_getElem hlt
        have hmm : (genPoints steps rand traj k).1[t].mmsi = effMmsi traj :=
          genPoints_mmsi _ (List.getElem_mem hlt)
        have hpred : ((genPoints steps rand traj k).1[t]?).any
            (fun p => p.mmsi == m) = (effMmsi traj == m) := by
          rw [hsome]
          show ((genPoints steps rand traj k).1[t].mmsi == m) =
            (effMmsi traj == m)
          rw [hmm]
        rw [List.filter_cons_of_pos (by simp [h]), List.map_cons,
            List.count_cons, hpred]
      · have hgen := genPoints_incomplete (by simpa using h) steps rand k
        rw [List.filter_cons_of_neg (by simpa using h)]
        have hpred : ((genPoints steps rand traj k).1[t]?).any
            (fun p => p.mmsi == m) = false := by
          rw [hgen]
          rfl
        rw [hpred]
        simp

theorem mkIterators_aligned (steps : ℕ) (rand : ℕ → ℚ) :
    ∀ (trajs : List Trajectory) (k : ℕ),
      AlignedAt (steps + 1) 0 (mkIterators steps rand trajs k).1 := by
  intro trajs
  induction trajs with
  | nil => intro k it hit; exact absurd hit (List.not_mem_nil it)
  | cons traj rest ih =>
      intro k it hit
      simp only [mkIterators] at hit
      rcases List.mem_cons.mp hit with rfl | hit
      · by_cases h : hasEndpoints traj = true
        · exact Or.inr ⟨genPoints_complete_length h steps rand k, rfl⟩
        · have hgen := genPoints_incomplete (by simpa using h) steps rand k
          refine Or.inl ⟨?_, rfl⟩
          show (genPoints steps rand traj k).1 = []
          rw [hgen]
      · exact ih _ it hit

theorem mkIterators_exists_nonempty (steps : ℕ) (rand : ℕ → ℚ) :
    ∀ (trajs : List Trajectory) (traj : Trajectory), traj ∈ trajs →
      hasEndpoints traj = true →
      ∀ k, ∃ it ∈ (mkIterators steps rand trajs k).1, it.points ≠ [] := by
  intro trajs
  induction trajs with
  | nil => intro traj hmem; exact absurd hmem (List.not_mem_nil traj)
  | cons t0 rest ih =>
      intro traj hmem hcomp k
      simp only [mkIterators]
      rcases List.mem_cons.mp hmem with rfl | hmem2
      · refine ⟨_, List.mem_cons_self _ _, ?_⟩
        have hlen := genPoints_complete_length hcomp steps rand k
        intro hc
        have hc2 : (genPoints steps rand traj k).1 = [] := hc
        rw [hc2] at hlen
        simp at hlen
      · obtain ⟨it, hit, hne⟩ :=
          ih traj hmem2 hcomp (genPoints steps rand t0 k).2
        exact ⟨it, List.mem_cons_of_mem _ hit, hne⟩

theorem maxRemaining_le_aligned {L i : ℕ} {its : List Iterator}
    (h : AlignedAt L i its) : maxRemaining its ≤ L := by
  induction its with
  | nil => exact Nat.zero_le L
  | cons it rest ih =>
      have hhead := h it (List.mem_cons_self it rest)
      have hrest : AlignedAt L i rest :=
        fun x hx => h x (List.mem_cons_of_mem _ hx)
      rw [maxRemaining_cons]
      have hre := remaining_val it
      rcases hhead with ⟨hnil, _⟩ | ⟨hlen, _⟩
      · have : it.points.length = 0 := by rw [hnil]; rfl
        have := ih hrest
        omega
      · have := ih hrest
        omega

theorem le_maxRemaining_of_mem {it : Iterator} {its : List Iterator}
    (hmem : it ∈ its) : remaining it ≤ maxRemaining its := by
  induction its with
  | nil => exact absurd hmem (List.not_mem_nil it)
  | cons x rest ih =>
      rw [maxRemaining_cons]
      rcases List.mem_cons.mp hmem with rfl | hm2
      · omega
      · have := ih hm2
        omega

theorem maxRemaining_aligned_start {L : ℕ} {its : List Iterator}
    (h : AlignedAt L 0 its) (hex : ∃ it ∈ its, it.points ≠ []) :
    maxRemaining its = L := by
  obtain ⟨it, hmem, hne⟩ := hex
  have hle := maxRemaining_le_aligned h
  rcases h it hmem with ⟨hnil, _⟩ | ⟨hlen, hidx⟩
  · exact absurd hnil hne
  · have hrem : remaining it = L := by
      rw [remaining_val, hlen, hidx]
      omega
    have hge := le_maxRemaining_of_mem hmem
    omega

theorem flatten_map_singleton (l : List ℕ) :
    (l.map fun t => [t]).flatten = l := by
  induction l with
  | nil => rfl
  | cons a l ih => simp [ih]

theorem session_idxSeq (steps : ℕ) (tOpt : Option String) (rand : ℕ → ℚ)
    (uuid : ℕ → String) (clock : ℕ → ℕ) (trajs : List Trajectory)
    (traj : Trajectory) (hmem : traj ∈ trajs)
    (hcomp : hasEndpoints traj = true)
    (hnodup : ((trajs.filter hasEndpoints).map effMmsi).Nodup) :
    idxSeq (sessionTrace steps tOpt rand uuid clock trajs) (effMmsi traj) =
      List.range (steps + 1) := by
  unfold sessionTrace
  have halign : AlignedAt (steps + 1) 0 (mkIterators steps rand trajs 0).1 :=
    mkIterators_aligned steps rand trajs 0
  have hex : ∃ it ∈ (mkIterators steps rand trajs 0).1, it.points ≠ [] :=
    mkIterators_exists_nonempty steps rand trajs traj hmem hcomp 0
  have hmax : maxRemaining (mkIterators steps rand trajs 0).1 = steps + 1 :=
    maxRemaining_aligned_start halign hex
  have hcf := runProducer_closedForm tOpt uuid clock (steps + 1) (steps + 1)
    0 (mkIterators steps rand trajs 0).1 0 0 (by omega) halign hex
  show idxSeq (runProducer tOpt uuid clock
      (maxRemaining (mkIterators steps rand trajs 0).1 + 1)
      (mkIterators steps rand trajs 0).1 0 0) (effMmsi traj) =
    List.range (steps + 1)
  rw [hmax]
  unfold idxSeq
  have hmaps :
      ((runProducer tOpt uuid clock (steps + 1 + 1)
          (mkIterators steps rand trajs 0).1 0 0).map
        fun tk => obsIdxs (effMmsi traj) tk.vessels) =
      ((runProducer tOpt uuid clock (steps + 1 + 1)
          (mkIterators steps rand trajs 0).1 0 0).map
        (fun tk => tk.vessels)).map fun vs => obsIdxs (effMmsi traj) vs := by
    rw [List.map_map]
    rfl
  rw [hmaps, hcf, List.map_append, List.map_map]
  have hone : ∀ t ∈ List.range' 0 (steps + 1),
      ((fun vs => obsIdxs (effMmsi traj) vs) ∘
        fun t => emitAt (mkIterators steps rand trajs 0).1 t) t = [t] := by
    intro t ht
    have htlt : t < steps + 1 := by
      have := List.mem_range'_1.mp ht
      omega
    show obsIdxs (effMmsi traj) (emitAt (mkIterators steps rand trajs 0).1 t)
      = [t]
    rw [obsIdxs_emitAt]
    have hcount : countAt (effMmsi traj) t (mkIterators steps rand trajs 0).1
        = 1 := by
      rw [countAt_mkIterators (effMmsi traj) t steps rand htlt trajs 0]
      exact List.count_eq_one_of_mem hnodup
        (List.mem_map.mpr ⟨traj, List.mem_filter.mpr ⟨hmem, hcomp⟩, rfl⟩)
    rw [hcount]
    rfl
  rw [List.map_congr_left hone, List.flatten_append]
  show (((List.range' 0 (steps + 1)).map fun t => [t]).flatten) ++
      obsIdxs (effMmsi traj) [] = List.range (steps + 1)
  rw [flatten_map_singleton, List.range_eq_range']
  simp [obsIdxs]

/-! Provenance of emitted vessel identifiers. -/

theorem stepIters_fst_mmsi {its : List Iterator} {v : LiveVessel}
    (hv : v ∈ (stepIters its).1) :
    ∃ pts ∈ its.map Iterator.points, ∃ p ∈ pts, v.mmsi = p.mmsi := by
  induction its with
  | nil => exact absurd hv (List.not_mem_nil v)
  | cons it rest ih =>
      cases h : it.points[it.index]? with
      | some p =>
          rw [stepIters_cons_some h] at hv
          rcases List.mem_cons.mp hv with rfl | hv
          · exact ⟨it.points, List.mem_cons_self _ _,
              p, List.getElem?_mem h, rfl⟩
          · obtain ⟨pts, hpts, q, hq, hm⟩ := ih hv
            exact ⟨pts, List.mem_cons_of_mem _ hpts, q, hq, hm⟩
      | none =>
          rw [stepIters_cons_none h] at hv
          obtain ⟨pts, hpts, q, hq, hm⟩ := ih hv
          exact ⟨pts, List.mem_cons_of_mem _ hpts, q, hq, hm⟩

theorem runProducer_mmsi (tOpt : Option String) (uuid : ℕ → String)
    (clock : ℕ → ℕ) :
    ∀ fuel its u b, ∀ tk ∈ runProducer tOpt uuid clock fuel its u b,
      ∀ v ∈ tk.vessels,
        ∃ pts ∈ its.map Iterator.points, ∃ p ∈ pts, v.mmsi = p.mmsi := by
  intro fuel
  induction fuel with
  | zero => intro its u b tk htk; exact absurd htk (List.not_mem_nil tk)
  | succ f ih =>
      intro its u b tk htk v hv
      rw [runProducer_succ] at htk
      by_cases he : (stepIters its).1.isEmpty
      · rw [if_pos he] at htk
        rcases List.mem_singleton.mp htk with rfl
        exact absurd hv (List.not_mem_nil v)
      · rw [if_neg he] at htk
        rcases List.mem_cons.mp htk with rfl | htk
        · exact stepIters_fst_mmsi hv
        · have := ih (stepIters its).2 (u + uuidUse tOpt) (b + 1) tk htk v hv
          rwa [stepIters_points_map] at this

/-! Keys of the consumer-local marker table. -/

theorem setMarker_keys (mk : List (ℕ × (ℚ × ℚ))) (m : ℕ) (p : ℚ × ℚ) :
    (setMarker mk m p).map Prod.fst = mk.map Prod.fst := by
  unfold setMarker
  rw [List.map_map]
  apply List.map_congr_left
  intro q _
  by_cases h : q.1 = m
  · simp [h]
  · simp [h]

theorem applyVessel_zero_keys (mk : List (ℕ × (ℚ × ℚ)))
    (v : LiveVessel) (hv : v.mmsi = 0) (hk : mk.map Prod.fst = [0]) :
    (applyVessel mk v).map Prod.fst = [0] := by
  obtain ⟨q, rfl⟩ : ∃ q, mk = [q] := by
    cases mk with
    | nil => exact absurd hk (by simp)
    | cons q rest =>
        cases rest with
        | nil => exact ⟨q, rfl⟩
        | cons r rest2 => exact absurd hk (by simp)
  have hq : q.1 = 0 := by
    have := hk
    simp at this
    exact this
  unfold applyVessel
  have hfind : findMarker [q] v.mmsi = some q.2 := by
    unfold findMarker
    rw [List.find?_cons_of_pos]
    · rfl
    · simp [hq, hv]
  rw [hfind]
  rw [setMarker_keys]
  exact hk

theorem applyTickVessels_zero_keys :
    ∀ (vs : List LiveVessel) (mk : List (ℕ × (ℚ × ℚ))),
      (∀ v ∈ vs, v.mmsi = 0) → mk.map Prod.fst = [0] →
      (applyTickVessels mk vs).map Prod.fst = [0] := by
  intro vs
  induction vs with
  | nil => intro mk _ hk; exact hk
  | cons v rest ih =>
      intro mk hall hk
      show (applyTickVessels (applyVessel mk v) rest).map Prod.fst = [0]
      exact ih (applyVessel mk v)
        (fun x hx => hall x (List.mem_cons_of_mem _ hx))
        (applyVessel_zero_keys mk v (hall v (List.mem_cons_self _ _)) hk)

theorem applyTickVessels_zero_keys_start (vs : List LiveVessel)
    (hall : ∀ v ∈ vs, v.mmsi = 0) (hne : vs ≠ []) :
    (applyTickVessels [] vs).map Prod.fst = [0] := by
  cases vs with
  | nil => exact absurd rfl hne
  | cons v rest =>
      show (applyTickVessels (applyVessel [] v) rest).map Prod.fst = [0]
      have hv0 : v.mmsi = 0 := hall v (List.mem_cons_self _ _)
      have hfirst : (applyVessel [] v).map Prod.fst = [0] := by
        unfold applyVessel findMarker
        simp [hv0]
      exact applyTickVessels_zero_keys rest (applyVessel [] v)
        (fun x hx => hall x (List.mem_cons_of_mem _ hx)) hfirst

/-! TraceId resolution. -/

theorem runProducer_traceId_const {s : String} (hs : s ≠ "")
    (uuid : ℕ → String) (clock : ℕ → ℕ) :
    ∀ fuel its u b,
      ∀ tk ∈ runProducer (some s) uuid clock fuel its u b,
        tk.traceId = s := by
  have hres : ∀ fresh, resolveTraceId (some s) fresh = s := by
    intro fresh
    show (if s.isEmpty = true then fresh else s) = s
    rw [if_neg]
    intro hc
    exact hs ((String.isEmpty_iff s).mp hc)
  intro fuel
  induction fuel with
  | zero => intro its u b tk htk; exact absurd htk (by simp [runProducer])
  | succ f ih =>
      intro its u b tk htk
      simp only [runProducer] at htk
      by_cases he : (stepIters its).1.isEmpty
      · rw [if_pos he] at htk
        rcases List.mem_singleton.mp htk with rfl
        exact hres _
      · rw [if_neg he] at htk
        rcases List.mem_cons.mp htk with rfl | htk
        · exact hres _
        · exact ih _ _ _ _ htk

/-! Claim theorems. -/

/-- C1: the claim states the Producer emits exactly the configured
number of interpolation points per complete trajectory (20 at the
state constant, 5 in the spec scenario). The generation loop runs
i = 0..steps inclusive, so a complete trajectory yields steps + 1
points — 21 at the constant 20 — and in the 5-point scenario the
session emits 6 observation-carrying ticks before the completion
tick, not 5, contradicting the stated count and the comment in the
source that says 20 points are generated. -/
theorem c1_point_count_off_by_one :
    (genPoints producerSteps randZero trajA 0).1.length = 21 ∧
    ((sessionTrace 5 (some "t") randZero uuidSeq clockSeq
        [trajA, trajB]).countP fun tk => !tk.vessels.isEmpty) = 6 := by
  decide

/-- C2: every completed playback session consists of some
observation ticks, none of which carries the completion flag,
followed by exactly one final tick with the flag set and an empty
vessel batch, and no tick of any kind after it. -/
theorem c2_exactly_one_done_tick (steps : ℕ) (tOpt : Option String)
    (rand : ℕ → ℚ) (uuid : ℕ → String) (clock : ℕ → ℕ)
    (trajs : List Trajectory) :
    ∃ body last,
      sessionTrace steps tOpt rand uuid clock trajs = body ++ [last] ∧
      (∀ x ∈ body, x.done = false) ∧ last.done = true ∧
      last.vessels = [] := by
  unfold sessionTrace
  exact runProducer_split tOpt uuid clock _ _ 0 0 (Nat.lt_succ_self _)

/-- C3 counterexample: with two complete trajectories that both lack
an mmsi, both map to the vessel identifier 0, and the idx values
observed for identifier 0 across consecutive ticks run 0,0,1,1,...,
which is not the strictly-increasing-by-one-from-zero sequence (the
unique such sequence of its length is 0,1,2,...). -/
theorem c3_counterexample_shared_identifier :
    ¬ (idxSeq (sessionTrace producerSteps (some "t") randZero uuidSeq
          clockSeq [trajNoId, trajNoId2]) 0 =
        List.range (idxSeq (sessionTrace producerSteps (some "t") randZero
          uuidSeq clockSeq [trajNoId, trajNoId2]) 0).length) := by
  decide

/-- C3 (amended): within one playback session, the idx values carried
by the effective identifier of a given complete trajectory form
exactly the sequence 0,1,...,steps — starting at 0 and strictly
increasing by exactly 1 — provided distinct complete trajectories
carry distinct effective identifiers (without that proviso the
sequence interleaves duplicates, see the counterexample); a new
session rebuilds all iterators at index 0, which is the only reset. -/
theorem c3_amended_idx_strictly_increasing (steps : ℕ)
    (tOpt : Option String) (rand : ℕ → ℚ) (uuid : ℕ → String)
    (clock : ℕ → ℕ) (trajs : List Trajectory) (traj : Trajectory)
    (hmem : traj ∈ trajs) (hcomp : hasEndpoints traj = true)
    (hnodup : ((trajs.filter hasEndpoints).map effMmsi).Nodup) :
    idxSeq (sessionTrace steps tOpt rand uuid clock trajs)
      (effMmsi traj) = List.range (steps + 1) :=
  session_idxSeq steps tOpt rand uuid clock trajs traj hmem hcomp hnodup

theorem c3_amended_idx_witness :
    trajNoId ∈ [trajNoId, trajA] ∧ hasEndpoints trajNoId = true ∧
    (([trajNoId, trajA].filter hasEndpoints).map effMmsi).Nodup ∧
    idxSeq (sessionTrace 2 (some "t") randZero uuidSeq clockSeq
      [trajNoId, trajA]) (effMmsi trajNoId) = List.range 3 :=
  ⟨by decide, by decide, by decide,
   c3_amended_idx_strictly_increasing 2 (some "t") randZero uuidSeq
     clockSeq [trajNoId, trajA] trajNoId (by decide) (by decide)
     (by decide)⟩

/-- C4: code bug evidence. In the two-ticks-in-quick-succession
scenario (marker resting at the origin, first tick targeting (10,0),
second tick targeting (0,10) arriving after 5 frames) the marker
settles at (1/2, 9): the point 9/10 of the way from the supersession
position (5,0) toward the second target, because the interpolate loop
writes ratios 0/10..9/10 and stops one step short of its target. The
new animation is indeed re-based at the current marker position and
the final position is driven by the second target, not the first, but
the animation does not end at the second tick coordinate as the
claim states. -/
theorem c4_animation_stops_short :
    (supersedeScenario (0, 0) (10, 0) (0, 10) 5).pos = (1/2, 9) ∧
    ((1/2 : ℚ), (9 : ℚ)) ≠ ((0 : ℚ), (10 : ℚ)) ∧
    ((1/2 : ℚ), (9 : ℚ)) ≠ ((10 : ℚ), (0 : ℚ)) := by
  refine ⟨?_, by norm_num, by norm_num⟩
  norm_num [supersedeScenario, runFrames, runFrame, runQueue,
    receiveTarget, animWrite, animationSteps]

/-- C5 counterexample: the emitted course is not a function of the
trajectory endpoints at all: for the same trajectory, the all-zeros
random oracle yields course 45 on the first point while the
all-halves oracle yields course 90, so no bearing of the endpoints
can equal the course of every run; the code draws the course from
[45,135) independently of the endpoints. -/
theorem c5_counterexample_course_not_bearing :
    ¬ ∃ bearing : GeoPoint → GeoPoint → ℚ,
        ∀ rand : ℕ → ℚ,
          ∀ p ∈ (genPoints producerSteps rand trajNoId 0).1,
            p.course = bearing { latitude := 0, longitude := 0 }
              { latitude := 1, longitude := 1 } := by
  rintro ⟨bearing, hb⟩
  have hmem : ∀ rand : ℕ → ℚ,
      ∃ p ∈ (genPoints producerSteps rand trajNoId 0).1,
        p.course = 45 + rand 1 * 90 := by
    intro rand
    refine ⟨_, List.mem_map.mpr ⟨0, List.mem_range.mpr (by omega), rfl⟩, rfl⟩
  obtain ⟨p1, hp1, hc1⟩ := hmem randZero
  obtain ⟨p2, hp2, hc2⟩ := hmem randHalf
  have h1 := hb randZero p1 hp1
  have h2 := hb randHalf p2 hp2
  rw [hc1] at h1
  rw [hc2] at h2
  rw [← h1] at h2
  norm_num [randZero, randHalf] at h2

/-- C5 (amended): speed and course are both randomized within fixed
ranges — speed in [10,25), course in [45,135) — for every generated
point, whenever the random oracle stays in [0,1); the heading is not
derived from the endpoints. -/
theorem c5_amended_speed_course_ranges (steps : ℕ) (rand : ℕ → ℚ)
    (traj : Trajectory) (k : ℕ)
    (hr : ∀ n, 0 ≤ rand n ∧ rand n < 1) :
    ∀ p ∈ (genPoints steps rand traj k).1,
      (10 ≤ p.speed ∧ p.speed < 25) ∧
      (45 ≤ p.course ∧ p.course < 135) := by
  intro p hp
  unfold genPoints at hp
  cases hs : traj.startLocation with
  | none => rw [hs] at hp; exact absurd hp (List.not_mem_nil p)
  | some s =>
      cases he : traj.endLocation with
      | none => rw [hs, he] at hp; exact absurd hp (List.not_mem_nil p)
      | some e =>
          rw [hs, he] at hp
          obtain ⟨i, _, rfl⟩ := List.mem_map.mp hp
          have hsp := hr (k + 2 * i)
          have hco := hr (k + 2 * i + 1)
          refine ⟨⟨?_, ?_⟩, ?_, ?_⟩
          · show (10 : ℚ) ≤ 10 + rand (k + 2 * i) * 15
            nlinarith [hsp.1, hsp.2]
          · show 10 + rand (k + 2 * i) * 15 < 25
            nlinarith [hsp.1, hsp.2]
          · show (45 : ℚ) ≤ 45 + rand (k + 2 * i + 1) * 90
            nlinarith [hco.1, hco.2]
          · show 45 + rand (k + 2 * i + 1) * 90 < 135
            nlinarith [hco.1, hco.2]

theorem c5_amended_ranges_witness :
    (∀ n, 0 ≤ randZero n ∧ randZero n < 1) ∧
    ∀ p ∈ (genPoints 1 randZero trajNoId 0).1,
      (10 ≤ p.speed ∧ p.speed < 25) ∧
      (45 ≤ p.course ∧ p.course < 135) :=
  ⟨fun _ => by norm_num [randZero],
   c5_amended_speed_course_ranges 1 randZero trajNoId 0
     (fun _ => by norm_num [randZero])⟩

/-- C6 counterexample: the claim says a tick with no vessels array is
handled without raising and as a no-op; the subscriber callback
instead throws a TypeError, because it reads tick.vessels.length
before any guard. -/
theorem c6_counterexample_missing_vessels_throws :
    onTick initialTelemetry wireNoVessels =
      Except.error "TypeError: tick.vessels is undefined" := rfl

/-- C6 (amended): a tick lacking the vessels array makes the
subscriber callback throw before any state update — so the hook and
marker state are left unchanged — but the condition is an uncaught
exception, not a graceful zero-observation update. -/
theorem c6_amended_throws_before_update (s : TelemetryState)
    (t : WireTick) (h : t.vessels = none) :
    onTick s t = Except.error "TypeError: tick.vessels is undefined" := by
  unfold onTick
  rw [h]

theorem c6_amended_throws_witness :
    wireNoVessels.vessels = none ∧
    onTick doneState wireNoVessels =
      Except.error "TypeError: tick.vessels is undefined" :=
  ⟨rfl, c6_amended_throws_before_update doneState wireNoVessels rfl⟩

/-- C7 counterexample: after handling the completion tick the hook
still processes later ticks: a subsequently delivered tick replaces
the vessel list (here from empty to one observation) and hence keeps
driving marker updates, refuting that the consumer stops listening
for the session after done. -/
theorem c7_counterexample_tick_after_done :
    onTick initialTelemetry wireDone = Except.ok doneState ∧
    onTick doneState wireAfter = Except.ok
      { liveVessels := [vObs], isDone := true,
        currentTraceId := some "t" } ∧
    ([vObs] : List LiveVessel) ≠ doneState.liveVessels ∧
    applyTickVessels [] [vObs] ≠ ([] : List (ℕ × (ℚ × ℚ))) := by
  refine ⟨rfl, rfl, by simp [vObs, doneState], ?_⟩
  show [((7 : ℕ), ((1 : ℚ), (2 : ℚ)))] ≠ []
  simp

/-- C7 (amended): on a completion tick the hook latches a done flag
but does not unsubscribe: every later delivered tick that carries a
vessels array still replaces the vessel state of the hook. -/
theorem c7_amended_keeps_listening (s : TelemetryState) (t : WireTick)
    (vs : List LiveVessel) (hd : s.isDone = true)
    (hv : t.vessels = some vs) :
    onTick s t = Except.ok
      { liveVessels := vs, isDone := true,
        currentTraceId := some t.traceId } := by
  unfold onTick
  rw [hv, hd]
  simp

theorem c7_amended_keeps_witness :
    doneState.isDone = true ∧ wireAfter.vessels = some [vObs] ∧
    onTick doneState wireAfter = Except.ok
      { liveVessels := [vObs], isDone := true,
        currentTraceId := some "t" } :=
  ⟨rfl, rfl, c7_amended_keeps_listening doneState wireAfter [vObs] rfl rfl⟩

/-- C8: trajectories missing either endpoint are silently skipped:
the session trace with them present equals the session trace with
them filtered out, so no observation of such a trajectory ever
appears in any emitted tick, and there is no error path for them. -/
theorem c8_incomplete_trajectories_skipped (steps : ℕ)
    (tOpt : Option String) (rand : ℕ → ℚ) (uuid : ℕ → String)
    (clock : ℕ → ℕ) (trajs : List Trajectory) :
    sessionTrace steps tOpt rand uuid clock (trajs.filter hasEndpoints) =
      sessionTrace steps tOpt rand uuid clock trajs := by
  have h2 : (mkIterators steps rand (trajs.filter hasEndpoints) 0).1 =
      (mkIterators steps rand trajs 0).1.filter
        fun it => !it.points.isEmpty := by
    rw [mkIterators_filter]
  show runProducer tOpt uuid clock
      (maxRemaining (mkIterators steps rand (trajs.filter hasEndpoints) 0).1
        + 1)
      (mkIterators steps rand (trajs.filter hasEndpoints) 0).1 0 0 =
    runProducer tOpt uuid clock
      (maxRemaining (mkIterators steps rand trajs 0).1 + 1)
      (mkIterators steps rand trajs 0).1 0 0
  rw [h2, maxRemaining_filter, runProducer_filter]

/-- C9 counterexample: when no traceId prop is configured, the
short-circuit OR draws a fresh uuid on every broadcast, so the ticks
of one playback session do not all carry one correlation id. -/
theorem c9_counterexample_fresh_uuid_per_tick :
    ¬ ∀ t1 ∈ sessionTrace producerSteps none randZero uuidSeq clockSeq
        [trajNoId],
      ∀ t2 ∈ sessionTrace producerSteps none randZero uuidSeq clockSeq
        [trajNoId], t1.traceId = t2.traceId := by
  decide

/-- C9 (amended): when the Producer is configured with a non-empty
traceId, every tick of the session — completion tick included —
carries exactly that id; without one, each broadcast draws a fresh
uuid (see the counterexample), so the grouping property holds only
for configured sessions. -/
theorem c9_amended_traceId_constant (steps : ℕ) (s : String)
    (rand : ℕ → ℚ) (uuid : ℕ → String) (clock : ℕ → ℕ)
    (trajs : List Trajectory) (hs : s ≠ "") :
    ∀ tk ∈ sessionTrace steps (some s) rand uuid clock trajs,
      tk.traceId = s := by
  unfold sessionTrace
  intro tk htk
  exact runProducer_traceId_const hs uuid clock _ _ 0 0 tk htk

theorem c9_amended_traceId_witness :
    ("t" : String) ≠ "" ∧
    ∀ tk ∈ sessionTrace 2 (some "t") randZero uuidSeq clockSeq
      [trajNoId], tk.traceId = "t" :=
  ⟨by decide,
   c9_amended_traceId_constant 2 "t" randZero uuidSeq clockSeq
     [trajNoId] (by decide)⟩

/-- C10: with two complete trajectories whose mmsi is falsy, every
observation either emits carries the effective vessel identifier 0,
and the consumer marker table, keyed by mmsi, collapses every
nonempty batch onto the single shared key 0: one marker serves both
trajectories. -/
theorem c10_falsy_mmsi_shared_marker (steps : ℕ) (tOpt : Option String)
    (rand : ℕ → ℚ) (uuid : ℕ → String) (clock : ℕ → ℕ)
    (A B : Trajectory) (hA : effMmsi A = 0) (hB : effMmsi B = 0) :
    (∀ tk ∈ sessionTrace steps tOpt rand uuid clock [A, B],
      ∀ v ∈ tk.vessels, v.mmsi = 0) ∧
    (∀ tk ∈ sessionTrace steps tOpt rand uuid clock [A, B],
      tk.vessels ≠ [] →
        (applyTickVessels [] tk.vessels).map Prod.fst = [0]) := by
  have hmm : ∀ tk ∈ sessionTrace steps tOpt rand uuid clock [A, B],
      ∀ v ∈ tk.vessels, v.mmsi = 0 := by
    intro tk htk v hv
    unfold sessionTrace at htk
    obtain ⟨pts, hpts, p, hp, heq⟩ :=
      runProducer_mmsi tOpt uuid clock _ _ 0 0 tk htk v hv
    have hits : (mkIterators steps rand [A, B] 0).1.map Iterator.points =
        [(genPoints steps rand A 0).1,
         (genPoints steps rand B (genPoints steps rand A 0).2).1] := rfl
    rw [hits] at hpts
    rcases List.mem_cons.mp hpts with rfl | hpts
    · rw [heq, genPoints_mmsi p hp, hA]
    · rcases List.mem_cons.mp hpts with rfl | hpts
      · rw [heq, genPoints_mmsi p hp, hB]
      · exact absurd hpts (List.not_mem_nil pts)
  exact ⟨hmm, fun tk htk hne =>
    applyTickVessels_zero_keys_start _ (hmm tk htk) hne⟩

theorem c10_falsy_mmsi_witness :
    effMmsi trajNoId = 0 ∧ effMmsi trajNoId2 = 0 ∧
    (∀ tk ∈ sessionTrace 2 (some "t") randZero uuidSeq clockSeq
        [trajNoId, trajNoId2], ∀ v ∈ tk.vessels, v.mmsi = 0) ∧
    (∀ tk ∈ sessionTrace 2 (some "t") randZero uuidSeq clockSeq
        [trajNoId, trajNoId2], tk.vessels ≠ [] →
      (applyTickVessels [] tk.vessels).map Prod.fst = [0]) :=
  ⟨rfl, rfl,
   (c10_falsy_mmsi_shared_marker 2 (some "t") randZero uuidSeq clockSeq
      trajNoId trajNoId2 rfl rfl).1,
   (c10_falsy_mmsi_shared_marker 2 (some "t") randZero uuidSeq clockSeq
      trajNoId trajNoId2 rfl rfl).2⟩

end ArcticTraceWatch
